import Mathlib

/-!
Verification of the policy construction and evaluation engine of
`flarelette-hono` (`src/policy.ts`), shallowly embedded in Lean 4.

The embedding mirrors the TypeScript source:
* `ClaimValue` models the shape of the `roles` / `permissions` fields of a
  JWT payload as seen by `Array.isArray`: absent, present-but-not-an-array
  (a bare string), or an array of strings.
* `PolicyRule`, `PolicyResult` mirror the tagged unions of the source.
* `PolicyImpl.evaluate` and the four per-rule evaluators mirror
  `PolicyImpl.evaluate` / `evaluateRolesAny` / `evaluateRolesAll` /
  `evaluateNeedAny` / `evaluateNeedAll`.
* `PolicyBuilderImpl.rolesAny` etc. mirror the builder methods; a call is
  modelled as a function from the builder's current rule list to either
  `Except.error (message, stateAtThrow)` (the synchronous throw, carrying
  the builder state observable after the throw) or `Except.ok newState`.
-/

/-- Shape of a claims field (`payload.roles` / `payload.permissions`) as
distinguished by the source's `Array.isArray` test: absent, present but not
an array (modelled as a bare string), or an array of strings. -/
inductive ClaimValue where
  | missing : ClaimValue
  | str : String → ClaimValue
  | arr : List String → ClaimValue
deriving DecidableEq, Repr

/-- The claims object (`JwtPayload`) restricted to the two fields the policy
engine reads; all other fields are opaque and never inspected. -/
structure JwtPayload where
  roles : ClaimValue
  permissions : ClaimValue
deriving DecidableEq, Repr

/-- `PolicyResult`: `\x7b success: true \x7d` or `\x7b success: false, reason \x7d`. -/
inductive PolicyResult where
  | success : PolicyResult
  | failure : String → PolicyResult
deriving DecidableEq, Repr

/-- `PolicyRule`: the four rule kinds of the source's tagged union. -/
inductive PolicyRule where
  | rolesAny : List String → PolicyRule
  | rolesAll : List String → PolicyRule
  | needAny : List String → PolicyRule
  | needAll : List String → PolicyRule
deriving DecidableEq, Repr

namespace PolicyImpl

/-- `PolicyImpl.evaluateRolesAny` (policy.ts:59-77). -/
def evaluateRolesAny (required : List String) (payload : JwtPayload) : PolicyResult :=
  match payload.roles with
  | ClaimValue.arr roles =>
    if roles.length = 0 then
      PolicyResult.failure
        ("Missing required roles: at least one of [" ++ String.intercalate ", " required ++ "]")
    else if required.any (fun role => roles.contains role) then
      PolicyResult.success
    else
      PolicyResult.failure
        ("Missing required roles: at least one of [" ++ String.intercalate ", " required ++ "]")
  | _ =>
    PolicyResult.failure
      ("Missing required roles: at least one of [" ++ String.intercalate ", " required ++ "]")

/-- `PolicyImpl.evaluateRolesAll` (policy.ts:79-97). -/
def evaluateRolesAll (required : List String) (payload : JwtPayload) : PolicyResult :=
  match payload.roles with
  | ClaimValue.arr roles =>
    if roles.length = 0 then
      PolicyResult.failure
        ("Missing required roles: all of [" ++ String.intercalate ", " required ++ "]")
    else if (required.filter (fun role => !(roles.contains role))).length > 0 then
      PolicyResult.failure
        ("Missing required roles: all of [" ++ String.intercalate ", " required ++ "]")
    else
      PolicyResult.success
  | _ =>
    PolicyResult.failure
      ("Missing required roles: all of [" ++ String.intercalate ", " required ++ "]")

/-- `PolicyImpl.evaluateNeedAny` (policy.ts:99-117). -/
def evaluateNeedAny (required : List String) (payload : JwtPayload) : PolicyResult :=
  match payload.permissions with
  | ClaimValue.arr permissions =>
    if permissions.length = 0 then
      PolicyResult.failure
        ("Missing required permissions: at least one of [" ++ String.intercalate ", " required ++ "]")
    else if required.any (fun perm => permissions.contains perm) then
      PolicyResult.success
    else
      PolicyResult.failure
        ("Missing required permissions: at least one of [" ++ String.intercalate ", " required ++ "]")
  | _ =>
    PolicyResult.failure
      ("Missing required permissions: at least one of [" ++ String.intercalate ", " required ++ "]")

/-- `PolicyImpl.evaluateNeedAll` (policy.ts:119-137). -/
def evaluateNeedAll (required : List String) (payload : JwtPayload) : PolicyResult :=
  match payload.permissions with
  | ClaimValue.arr permissions =>
    if permissions.length = 0 then
      PolicyResult.failure
        ("Missing required permissions: all of [" ++ String.intercalate ", " required ++ "]")
    else if (required.filter (fun perm => !(permissions.contains perm))).length > 0 then
      PolicyResult.failure
        ("Missing required permissions: all of [" ++ String.intercalate ", " required ++ "]")
    else
      PolicyResult.success
  | _ =>
    PolicyResult.failure
      ("Missing required permissions: all of [" ++ String.intercalate ", " required ++ "]")

/-- `PolicyImpl.evaluateRule` (policy.ts:46-57). -/
def evaluateRule (rule : PolicyRule) (payload : JwtPayload) : PolicyResult :=
  match rule with
  | PolicyRule.rolesAny roles => evaluateRolesAny roles payload
  | PolicyRule.rolesAll roles => evaluateRolesAll roles payload
  | PolicyRule.needAny permissions => evaluateNeedAny permissions payload
  | PolicyRule.needAll permissions => evaluateNeedAll permissions payload

/-- The `for (const rule of this.rules)` loop of `PolicyImpl.evaluate`
(policy.ts:36-41): first failing rule's result is returned, otherwise
success once the list is exhausted. -/
def evaluateRules : List PolicyRule → JwtPayload → PolicyResult
  | [], _ => PolicyResult.success
  | rule :: rest, payload =>
    match evaluateRule rule payload with
    | PolicyResult.success => evaluateRules rest payload
    | PolicyResult.failure reason => PolicyResult.failure reason

/-- `PolicyImpl.evaluate` (policy.ts:29-44): empty rule list succeeds
immediately, otherwise run the loop. -/
def evaluate (rules : List PolicyRule) (payload : JwtPayload) : PolicyResult :=
  if rules.length = 0 then PolicyResult.success
  else evaluateRules rules payload

end PolicyImpl

/-- The failure reason each rule kind produces, as a function of the rule
alone (the literal template strings of policy.ts). -/
def reasonOf : PolicyRule → String
  | PolicyRule.rolesAny required =>
      "Missing required roles: at least one of [" ++ String.intercalate ", " required ++ "]"
  | PolicyRule.rolesAll required =>
      "Missing required roles: all of [" ++ String.intercalate ", " required ++ "]"
  | PolicyRule.needAny required =>
      "Missing required permissions: at least one of [" ++ String.intercalate ", " required ++ "]"
  | PolicyRule.needAll required =>
      "Missing required permissions: all of [" ++ String.intercalate ", " required ++ "]"

theorem contains_eq_decide (xs : List String) (a : String) :
    xs.contains a = decide (a ∈ xs) := by
  by_cases h : a ∈ xs <;> simp [h]

theorem evaluateRolesAny_success_iff (required : List String) (c : JwtPayload) :
    PolicyImpl.evaluateRolesAny required c = PolicyResult.success ↔
    ∃ xs, c.roles = ClaimValue.arr xs ∧ xs ≠ [] ∧ ∃ r, r ∈ required ∧ r ∈ xs := by
  obtain ⟨cr, cp⟩ := c
  cases cr with
  | missing => simp [PolicyImpl.evaluateRolesAny]
  | str s => simp [PolicyImpl.evaluateRolesAny]
  | arr xs =>
    simp only [PolicyImpl.evaluateRolesAny]
    by_cases hlen : xs.length = 0
    · rw [if_pos hlen]
      have hx : xs = [] := List.length_eq_zero.mp hlen
      subst hx
      simp
    · rw [if_neg hlen]
      have hx : xs ≠ [] := fun h => hlen (by simp [h])
      by_cases hany : required.any (fun role => xs.contains role) = true
      · rw [if_pos hany]
        obtain ⟨r, hr, hmem⟩ := List.any_eq_true.mp hany
        constructor
        · intro _
          exact ⟨xs, rfl, hx, r, hr, by simpa using hmem⟩
        · intro _
          rfl
      · rw [if_neg hany]
        constructor
        · intro h
          simp at h
        · rintro ⟨ys, hys, -, r, hr, hmem⟩
          injection hys with hxy
          subst hxy
          exact absurd (List.any_eq_true.mpr ⟨r, hr, by simpa using hmem⟩) hany

theorem evaluateRolesAll_success_iff (required : List String) (c : JwtPayload) :
    PolicyImpl.evaluateRolesAll required c = PolicyResult.success ↔
    ∃ xs, c.roles = ClaimValue.arr xs ∧ xs ≠ [] ∧ ∀ r ∈ required, r ∈ xs := by
  obtain ⟨cr, cp⟩ := c
  cases cr with
  | missing => simp [PolicyImpl.evaluateRolesAll]
  | str s => simp [PolicyImpl.evaluateRolesAll]
  | arr xs =>
    simp only [PolicyImpl.evaluateRolesAll]
    by_cases hlen : xs.length = 0
    · rw [if_pos hlen]
      have hx : xs = [] := List.length_eq_zero.mp hlen
      subst hx
      simp
    · rw [if_neg hlen]
      have hx : xs ≠ [] := fun h => hlen (by simp [h])
      by_cases hf : (required.filter (fun role => !(xs.contains role))).length > 0
      · rw [if_pos hf]
        constructor
        · intro h
          simp at h
        · rintro ⟨ys, hys, -, hall⟩
          injection hys with hxy
          subst hxy
          obtain ⟨a, ha⟩ :=
            List.exists_mem_of_ne_nil _ (List.length_pos.mp hf)
          rw [List.mem_filter] at ha
          obtain ⟨hareq, hap⟩ := ha
          have : a ∉ xs := by simpa using hap
          exact absurd (hall a hareq) this
      · rw [if_neg hf]
        have hnil : required.filter (fun role => !(xs.contains role)) = [] :=
          List.length_eq_zero.mp (Nat.le_zero.mp (Nat.not_lt.mp hf))
        have hall : ∀ r ∈ required, r ∈ xs := by
          intro r hr
          have := List.filter_eq_nil_iff.mp hnil r hr
          simpa using this
        constructor
        · intro _
          exact ⟨xs, rfl, hx, hall⟩
        · intro _
          rfl

theorem evaluateNeedAny_success_iff (required : List String) (c : JwtPayload) :
    PolicyImpl.evaluateNeedAny required c = PolicyResult.success ↔
    ∃ xs, c.permissions = ClaimValue.arr xs ∧ xs ≠ [] ∧ ∃ p, p ∈ required ∧ p ∈ xs := by
  obtain ⟨cr, cp⟩ := c
  cases cp with
  | missing => simp [PolicyImpl.evaluateNeedAny]
  | str s => simp [PolicyImpl.evaluateNeedAny]
  | arr xs =>
    simp only [PolicyImpl.evaluateNeedAny]
    by_cases hlen : xs.length = 0
    · rw [if_pos hlen]
      have hx : xs = [] := List.length_eq_zero.mp hlen
      subst hx
      simp
    · rw [if_neg hlen]
      have hx : xs ≠ [] := fun h => hlen (by simp [h])
      by_cases hany : required.any (fun perm => xs.contains perm) = true
      · rw [if_pos hany]
        obtain ⟨p, hp, hmem⟩ := List.any_eq_true.mp hany
        constructor
        · intro _
          exact ⟨xs, rfl, hx, p, hp, by simpa using hmem⟩
        · intro _
          rfl
      · rw [if_neg hany]
        constructor
        · intro h
          simp at h
        · rintro ⟨ys, hys, -, p, hp, hmem⟩
          injection hys with hxy
          subst hxy
          exact absurd (List.any_eq_true.mpr ⟨p, hp, by simpa using hmem⟩) hany

theorem evaluateNeedAll_success_iff (required : List String) (c : JwtPayload) :
    PolicyImpl.evaluateNeedAll required c = PolicyResult.success ↔
    ∃ xs, c.permissions = ClaimValue.arr xs ∧ xs ≠ [] ∧ ∀ p ∈ required, p ∈ xs := by
  obtain ⟨cr, cp⟩ := c
  cases cp with
  | missing => simp [PolicyImpl.evaluateNeedAll]
  | str s => simp [PolicyImpl.evaluateNeedAll]
  | arr xs =>
    simp only [PolicyImpl.evaluateNeedAll]
    by_cases hlen : xs.length = 0
    · rw [if_pos hlen]
      have hx : xs = [] := List.length_eq_zero.mp hlen
      subst hx
      simp
    · rw [if_neg hlen]
      have hx : xs ≠ [] := fun h => hlen (by simp [h])
      by_cases hf : (required.filter (fun perm => !(xs.contains perm))).length > 0
      · rw [if_pos hf]
        constructor
        · intro h
          simp at h
        · rintro ⟨ys, hys, -, hall⟩
          injection hys with hxy
          subst hxy
          obtain ⟨a, ha⟩ :=
            List.exists_mem_of_ne_nil _ (List.length_pos.mp hf)
          rw [List.mem_filter] at ha
          obtain ⟨hareq, hap⟩ := ha
          have : a ∉ xs := by simpa using hap
          exact absurd (hall a hareq) this
      · rw [if_neg hf]
        have hnil : required.filter (fun perm => !(xs.contains perm)) = [] :=
          List.length_eq_zero.mp (Nat.le_zero.mp (Nat.not_lt.mp hf))
        have hall : ∀ p ∈ required, p ∈ xs := by
          intro p hp
          have := List.filter_eq_nil_iff.mp hnil p hp
          simpa using this
        constructor
        · intro _
          exact ⟨xs, rfl, hx, hall⟩
        · intro _
          rfl

theorem evaluateRule_cases (rule : PolicyRule) (c : JwtPayload) :
    PolicyImpl.evaluateRule rule c = PolicyResult.success ∨
    PolicyImpl.evaluateRule rule c = PolicyResult.failure (reasonOf rule) := by
  obtain ⟨cr, cp⟩ := c
  cases rule with
  | rolesAny required =>
    cases cr with
    | arr xs =>
      simp only [PolicyImpl.evaluateRule, PolicyImpl.evaluateRolesAny, reasonOf]
      split
      · right; rfl
      · split
        · left; rfl
        · right; rfl
    | missing => right; rfl
    | str s => right; rfl
  | rolesAll required =>
    cases cr with
    | arr xs =>
      simp only [PolicyImpl.evaluateRule, PolicyImpl.evaluateRolesAll, reasonOf]
      split
      · right; rfl
      · split
        · right; rfl
        · left; rfl
    | missing => right; rfl
    | str s => right; rfl
  | needAny required =>
    cases cp with
    | arr xs =>
      simp only [PolicyImpl.evaluateRule, PolicyImpl.evaluateNeedAny, reasonOf]
      split
      · right; rfl
      · split
        · left; rfl
        · right; rfl
    | missing => right; rfl
    | str s => right; rfl
  | needAll required =>
    cases cp with
    | arr xs =>
      simp only [PolicyImpl.evaluateRule, PolicyImpl.evaluateNeedAll, reasonOf]
      split
      · right; rfl
      · split
        · right; rfl
        · left; rfl
    | missing => right; rfl
    | str s => right; rfl

theorem evaluateRules_all_success (payload : JwtPayload) (rules : List PolicyRule)
    (h : ∀ r ∈ rules, PolicyImpl.evaluateRule r payload = PolicyResult.success) :
    PolicyImpl.evaluateRules rules payload = PolicyResult.success := by
  induction rules with
  | nil => rfl
  | cons rule rest ih =>
    simp only [PolicyImpl.evaluateRules]
    rw [h rule (by simp)]
    exact ih (fun r hr => h r (by simp [hr]))

theorem evaluateRules_first_failure (payload : JwtPayload) (pre : List PolicyRule)
    (rule : PolicyRule) (post : List PolicyRule)
    (hpre : ∀ r ∈ pre, PolicyImpl.evaluateRule r payload = PolicyResult.success)
    (hfail : PolicyImpl.evaluateRule rule payload ≠ PolicyResult.success) :
    PolicyImpl.evaluateRules (pre ++ rule :: post) payload =
      PolicyImpl.evaluateRule rule payload := by
  induction pre with
  | nil =>
    simp only [List.nil_append, PolicyImpl.evaluateRules]
    cases h : PolicyImpl.evaluateRule rule payload with
    | success => exact absurd h hfail
    | failure reason => rfl
  | cons r rest ih =>
    simp only [List.cons_append, PolicyImpl.evaluateRules]
    rw [hpre r (by simp)]
    exact ih (fun r' hr' => hpre r' (by simp [hr']))

namespace PolicyImpl

/-- The body of `PolicyImpl.evaluate` with the observable state threaded
through: alongside the `PolicyResult`, the claims object as it stands when
the loop returns. The source loop only reads `payload`, so the state flows
through each iteration unchanged. -/
def evaluateRulesRun : List PolicyRule → JwtPayload → PolicyResult × JwtPayload
  | [], payload => (PolicyResult.success, payload)
  | rule :: rest, payload =>
    match evaluateRule rule payload with
    | PolicyResult.success => evaluateRulesRun rest payload
    | PolicyResult.failure reason => (PolicyResult.failure reason, payload)

/-- `PolicyImpl.evaluate` with the observable post-state: the result together
with the policy's rule list and the claims object as they stand when the
call returns (the source never assigns to either). -/
def evaluateRun (rules : List PolicyRule) (payload : JwtPayload) :
    PolicyResult × List PolicyRule × JwtPayload :=
  if rules.length = 0 then (PolicyResult.success, rules, payload)
  else ((evaluateRulesRun rules payload).1, rules, (evaluateRulesRun rules payload).2)

end PolicyImpl

theorem evaluateRulesRun_eq (rules : List PolicyRule) (payload : JwtPayload) :
    PolicyImpl.evaluateRulesRun rules payload =
      (PolicyImpl.evaluateRules rules payload, payload) := by
  induction rules with
  | nil => rfl
  | cons rule rest ih =>
    simp only [PolicyImpl.evaluateRulesRun, PolicyImpl.evaluateRules]
    cases h : PolicyImpl.evaluateRule rule payload with
    | success => exact ih
    | failure reason => rfl

namespace PolicyBuilderImpl

/-- `PolicyBuilderImpl.rolesAny` (policy.ts:148-154), as a function of the
builder's current rule list. `Except.error (msg, state)` models the
synchronous throw, carrying the builder state observable after the throw
(the throw happens before the push, so that state is the input state). -/
def rolesAny (rules : List PolicyRule) (roles : List String) :
    Except (String × List PolicyRule) (List PolicyRule) :=
  if roles.length = 0 then
    Except.error ("rolesAny requires at least one role", rules)
  else
    Except.ok (rules ++ [PolicyRule.rolesAny roles])

/-- `PolicyBuilderImpl.rolesAll` (policy.ts:156-162). -/
def rolesAll (rules : List PolicyRule) (roles : List String) :
    Except (String × List PolicyRule) (List PolicyRule) :=
  if roles.length = 0 then
    Except.error ("rolesAll requires at least one role", rules)
  else
    Except.ok (rules ++ [PolicyRule.rolesAll roles])

/-- `PolicyBuilderImpl.needAny` (policy.ts:164-170). -/
def needAny (rules : List PolicyRule) (permissions : List String) :
    Except (String × List PolicyRule) (List PolicyRule) :=
  if permissions.length = 0 then
    Except.error ("needAny requires at least one permission", rules)
  else
    Except.ok (rules ++ [PolicyRule.needAny permissions])

/-- `PolicyBuilderImpl.needAll` (policy.ts:172-178). -/
def needAll (rules : List PolicyRule) (permissions : List String) :
    Except (String × List PolicyRule) (List PolicyRule) :=
  if permissions.length = 0 then
    Except.error ("needAll requires at least one permission", rules)
  else
    Except.ok (rules ++ [PolicyRule.needAll permissions])

/-- `PolicyBuilderImpl.build` (policy.ts:180-183): the returned Policy wraps
`Object.freeze([...this.rules])`, a frozen snapshot of the rule list at the
moment of the call; with value semantics the snapshot is the list itself. -/
def build (rules : List PolicyRule) : List PolicyRule := rules

end PolicyBuilderImpl

/-- One call on the builder's fluent API, carrying the call's arguments. -/
inductive BuilderOp where
  | rolesAny : List String → BuilderOp
  | rolesAll : List String → BuilderOp
  | needAny : List String → BuilderOp
  | needAll : List String → BuilderOp
deriving DecidableEq, Repr

/-- Apply one builder call to the builder's current rule list. -/
def applyOp (rules : List PolicyRule) : BuilderOp → Except (String × List PolicyRule) (List PolicyRule)
  | BuilderOp.rolesAny roles => PolicyBuilderImpl.rolesAny rules roles
  | BuilderOp.rolesAll roles => PolicyBuilderImpl.rolesAll rules roles
  | BuilderOp.needAny permissions => PolicyBuilderImpl.needAny rules permissions
  | BuilderOp.needAll permissions => PolicyBuilderImpl.needAll rules permissions

/-- Run a sequence of builder calls from a given rule list; the first throw
aborts the run. -/
def runOpsFrom (rules : List PolicyRule) : List BuilderOp → Except (String × List PolicyRule) (List PolicyRule)
  | [] => Except.ok rules
  | op :: rest =>
    match applyOp rules op with
    | Except.ok rules2 => runOpsFrom rules2 rest
    | Except.error e => Except.error e

/-- Run a sequence of builder calls on a fresh builder (`policy()`,
policy.ts:199-201: the builder starts with an empty rule list). -/
def runOps (ops : List BuilderOp) : Except (String × List PolicyRule) (List PolicyRule) :=
  runOpsFrom [] ops

theorem applyOp_ok_append (rules : List PolicyRule) (op : BuilderOp)
    (out : List PolicyRule) (h : applyOp rules op = Except.ok out) :
    ∃ rule, out = rules ++ [rule] := by
  cases op with
  | rolesAny roles =>
    simp only [applyOp, PolicyBuilderImpl.rolesAny] at h
    split at h
    · cases h
    · exact ⟨PolicyRule.rolesAny roles, by injection h with h2; exact h2.symm⟩
  | rolesAll roles =>
    simp only [applyOp, PolicyBuilderImpl.rolesAll] at h
    split at h
    · cases h
    · exact ⟨PolicyRule.rolesAll roles, by injection h with h2; exact h2.symm⟩
  | needAny permissions =>
    simp only [applyOp, PolicyBuilderImpl.needAny] at h
    split at h
    · cases h
    · exact ⟨PolicyRule.needAny permissions, by injection h with h2; exact h2.symm⟩
  | needAll permissions =>
    simp only [applyOp, PolicyBuilderImpl.needAll] at h
    split at h
    · cases h
    · exact ⟨PolicyRule.needAll permissions, by injection h with h2; exact h2.symm⟩

theorem runOpsFrom_ok_extends (ops : List BuilderOp) :
    ∀ rules out, runOpsFrom rules ops = Except.ok out → ∃ t, out = rules ++ t := by
  induction ops with
  | nil =>
    intro rules out h
    injection h with h2
    exact ⟨[], by simp [h2.symm]⟩
  | cons op rest ih =>
    intro rules out h
    simp only [runOpsFrom] at h
    cases happ : applyOp rules op with
    | error e => rw [happ] at h; cases h
    | ok rules2 =>
      rw [happ] at h
      obtain ⟨rule, hr⟩ := applyOp_ok_append rules op rules2 happ
      obtain ⟨t, ht⟩ := ih rules2 out h
      exact ⟨[rule] ++ t, by simp [ht, hr]⟩

theorem runOpsFrom_append (ops1 ops2 : List BuilderOp) :
    ∀ rules, runOpsFrom rules (ops1 ++ ops2) =
      match runOpsFrom rules ops1 with
      | Except.ok rules2 => runOpsFrom rules2 ops2
      | Except.error e => Except.error e := by
  induction ops1 with
  | nil => intro rules; rfl
  | cons op rest ih =>
    intro rules
    simp only [List.cons_append, runOpsFrom]
    cases happ : applyOp rules op with
    | error e => rfl
    | ok rules2 => exact ih rules2

/-- Two claims-field values with the same member set: both arrays holding
the same set of strings (so any permutation or duplication of elements
relates), or literally equal otherwise. -/
def ClaimValue.SameMembers : ClaimValue → ClaimValue → Prop
  | ClaimValue.arr xs, ClaimValue.arr ys => ∀ a, a ∈ xs ↔ a ∈ ys
  | v, w => v = w

theorem sameMembers_any (required xs ys : List String) (h : ∀ a, a ∈ xs ↔ a ∈ ys) :
    required.any (fun r => xs.contains r) = required.any (fun r => ys.contains r) := by
  induction required with
  | nil => rfl
  | cons r rest ih =>
    simp only [List.any_cons, ih]
    have : xs.contains r = ys.contains r := by
      rw [contains_eq_decide, contains_eq_decide, decide_eq_decide.mpr (h r)]
    rw [this]

theorem sameMembers_filter_length (required xs ys : List String) (h : ∀ a, a ∈ xs ↔ a ∈ ys) :
    (required.filter (fun r => !(xs.contains r))).length =
    (required.filter (fun r => !(ys.contains r))).length := by
  have : required.filter (fun r => !(xs.contains r)) =
      required.filter (fun r => !(ys.contains r)) := by
    apply List.filter_congr
    intro a _
    rw [contains_eq_decide, contains_eq_decide, decide_eq_decide.mpr (h a)]
  rw [this]

theorem sameMembers_nil_iff (xs ys : List String) (h : ∀ a, a ∈ xs ↔ a ∈ ys) :
    xs = [] ↔ ys = [] := by
  rw [List.eq_nil_iff_forall_not_mem, List.eq_nil_iff_forall_not_mem]
  exact ⟨fun hx a ha => hx a ((h a).mpr ha), fun hy a ha => hy a ((h a).mp ha)⟩

theorem evaluateRolesAny_congr (required : List String) (c c' : JwtPayload)
    (h : ClaimValue.SameMembers c.roles c'.roles) :
    PolicyImpl.evaluateRolesAny required c = PolicyImpl.evaluateRolesAny required c' := by
  obtain ⟨cr, cp⟩ := c
  obtain ⟨cr', cp'⟩ := c'
  simp only at h
  cases cr with
  | arr xs =>
    cases cr' with
    | arr ys =>
      have hmem : ∀ a, a ∈ xs ↔ a ∈ ys := h
      simp only [PolicyImpl.evaluateRolesAny]
      by_cases hx : xs.length = 0
      · have hy : ys.length = 0 := by
          rw [List.length_eq_zero] at hx ⊢
          exact (sameMembers_nil_iff xs ys hmem).mp hx
        rw [if_pos hx, if_pos hy]
      · have hy : ¬ ys.length = 0 := by
          rw [List.length_eq_zero] at hx ⊢
          exact fun he => hx ((sameMembers_nil_iff xs ys hmem).mpr he)
        rw [if_neg hx, if_neg hy, sameMembers_any required xs ys hmem]
    | missing => exact absurd h (by simp [ClaimValue.SameMembers])
    | str s => exact absurd h (by simp [ClaimValue.SameMembers])
  | missing =>
    have h2 : ClaimValue.missing = cr' := h
    cases h2
    rfl
  | str s =>
    have h2 : ClaimValue.str s = cr' := h
    cases h2
    rfl

theorem evaluateRolesAll_congr (required : List String) (c c' : JwtPayload)
    (h : ClaimValue.SameMembers c.roles c'.roles) :
    PolicyImpl.evaluateRolesAll required c = PolicyImpl.evaluateRolesAll required c' := by
  obtain ⟨cr, cp⟩ := c
  obtain ⟨cr', cp'⟩ := c'
  simp only at h
  cases cr with
  | arr xs =>
    cases cr' with
    | arr ys =>
      have hmem : ∀ a, a ∈ xs ↔ a ∈ ys := h
      simp only [PolicyImpl.evaluateRolesAll]
      by_cases hx : xs.length = 0
      · have hy : ys.length = 0 := by
          rw [List.length_eq_zero] at hx ⊢
          exact (sameMembers_nil_iff xs ys hmem).mp hx
        rw [if_pos hx, if_pos hy]
      · have hy : ¬ ys.length = 0 := by
          rw [List.length_eq_zero] at hx ⊢
          exact fun he => hx ((sameMembers_nil_iff xs ys hmem).mpr he)
        rw [if_neg hx, if_neg hy, sameMembers_filter_length required xs ys hmem]
    | missing => exact absurd h (by simp [ClaimValue.SameMembers])
    | str s => exact absurd h (by simp [ClaimValue.SameMembers])
  | missing =>
    have h2 : ClaimValue.missing = cr' := h
    cases h2
    rfl
  | str s =>
    have h2 : ClaimValue.str s = cr' := h
    cases h2
    rfl

theorem evaluateNeedAny_congr (required : List String) (c c' : JwtPayload)
    (h : ClaimValue.SameMembers c.permissions c'.permissions) :
    PolicyImpl.evaluateNeedAny required c = PolicyImpl.evaluateNeedAny required c' := by
  obtain ⟨cr, cp⟩ := c
  obtain ⟨cr', cp'⟩ := c'
  simp only at h
  cases cp with
  | arr xs =>
    cases cp' with
    | arr ys =>
      have hmem : ∀ a, a ∈ xs ↔ a ∈ ys := h
      simp only [PolicyImpl.evaluateNeedAny]
      by_cases hx : xs.length = 0
      · have hy : ys.length = 0 := by
          rw [List.length_eq_zero] at hx ⊢
          exact (sameMembers_nil_iff xs ys hmem).mp hx
        rw [if_pos hx, if_pos hy]
      · have hy : ¬ ys.length = 0 := by
          rw [List.length_eq_zero] at hx ⊢
          exact fun he => hx ((sameMembers_nil_iff xs ys hmem).mpr he)
        rw [if_neg hx, if_neg hy, sameMembers_any required xs ys hmem]
    | missing => exact absurd h (by simp [ClaimValue.SameMembers])
    | str s => exact absurd h (by simp [ClaimValue.SameMembers])
  | missing =>
    have h2 : ClaimValue.missing = cp' := h
    cases h2
    rfl
  | str s =>
    have h2 : ClaimValue.str s = cp' := h
    cases h2
    rfl

theorem evaluateNeedAll_congr (required : List String) (c c' : JwtPayload)
    (h : ClaimValue.SameMembers c.permissions c'.permissions) :
    PolicyImpl.evaluateNeedAll required c = PolicyImpl.evaluateNeedAll required c' := by
  obtain ⟨cr, cp⟩ := c
  obtain ⟨cr', cp'⟩ := c'
  simp only at h
  cases cp with
  | arr xs =>
    cases cp' with
    | arr ys =>
      have hmem : ∀ a, a ∈ xs ↔ a ∈ ys := h
      simp only [PolicyImpl.evaluateNeedAll]
      by_cases hx : xs.length = 0
      · have hy : ys.length = 0 := by
          rw [List.length_eq_zero] at hx ⊢
          exact (sameMembers_nil_iff xs ys hmem).mp hx
        rw [if_pos hx, if_pos hy]
      · have hy : ¬ ys.length = 0 := by
          rw [List.length_eq_zero] at hx ⊢
          exact fun he => hx ((sameMembers_nil_iff xs ys hmem).mpr he)
        rw [if_neg hx, if_neg hy, sameMembers_filter_length required xs ys hmem]
    | missing => exact absurd h (by simp [ClaimValue.SameMembers])
    | str s => exact absurd h (by simp [ClaimValue.SameMembers])
  | missing =>
    have h2 : ClaimValue.missing = cp' := h
    cases h2
    rfl
  | str s =>
    have h2 : ClaimValue.str s = cp' := h
    cases h2
    rfl

theorem evaluateRule_congr (rule : PolicyRule) (c c' : JwtPayload)
    (hr : ClaimValue.SameMembers c.roles c'.roles)
    (hp : ClaimValue.SameMembers c.permissions c'.permissions) :
    PolicyImpl.evaluateRule rule c = PolicyImpl.evaluateRule rule c' := by
  cases rule with
  | rolesAny required => exact evaluateRolesAny_congr required c c' hr
  | rolesAll required => exact evaluateRolesAll_congr required c c' hr
  | needAny required => exact evaluateNeedAny_congr required c c' hp
  | needAll required => exact evaluateNeedAll_congr required c c' hp

theorem evaluateRules_congr (rules : List PolicyRule) (c c' : JwtPayload)
    (hr : ClaimValue.SameMembers c.roles c'.roles)
    (hp : ClaimValue.SameMembers c.permissions c'.permissions) :
    PolicyImpl.evaluateRules rules c = PolicyImpl.evaluateRules rules c' := by
  induction rules with
  | nil => rfl
  | cons rule rest ih =>
    simp only [PolicyImpl.evaluateRules]
    rw [evaluateRule_congr rule c c' hr hp, ih]

/-- Claim C1: for every policy and claims object, evaluation walks the rules
in insertion order with fail-fast semantics: if every rule passes, the result
is Success; if some rule fails and every earlier rule passes, the result is
Failure with that failing rule's reason, whatever rules come later (the
suffix after the first failing rule is never consulted), so the reported
reason is always that of the earliest-appended failing rule. -/
theorem evaluate_first_failing_rule (payload : JwtPayload) :
    (∀ rules : List PolicyRule,
      (∀ r ∈ rules, PolicyImpl.evaluateRule r payload = PolicyResult.success) →
      PolicyImpl.evaluate rules payload = PolicyResult.success) ∧
    (∀ (pre : List PolicyRule) (rule : PolicyRule) (post : List PolicyRule),
      (∀ r ∈ pre, PolicyImpl.evaluateRule r payload = PolicyResult.success) →
      PolicyImpl.evaluateRule rule payload ≠ PolicyResult.success →
      PolicyImpl.evaluate (pre ++ rule :: post) payload =
        PolicyResult.failure (reasonOf rule)) := by
  constructor
  · intro rules h
    unfold PolicyImpl.evaluate
    split
    · rfl
    · exact evaluateRules_all_success payload rules h
  · intro pre rule post hpre hfail
    have hne : ¬ (pre ++ rule :: post).length = 0 := by simp
    unfold PolicyImpl.evaluate
    rw [if_neg hne, evaluateRules_first_failure payload pre rule post hpre hfail]
    cases evaluateRule_cases rule payload with
    | inl h => exact absurd h hfail
    | inr h => exact h

theorem evaluate_first_failing_rule_witness :
    PolicyImpl.evaluate
      ([PolicyRule.rolesAny ["admin"]] ++ PolicyRule.needAll ["w"] :: [PolicyRule.rolesAll ["z"]])
      ⟨ClaimValue.arr ["admin"], ClaimValue.missing⟩ =
      PolicyResult.failure (reasonOf (PolicyRule.needAll ["w"])) :=
  (evaluate_first_failing_rule ⟨ClaimValue.arr ["admin"], ClaimValue.missing⟩).2
    [PolicyRule.rolesAny ["admin"]] (PolicyRule.needAll ["w"]) [PolicyRule.rolesAll ["z"]]
    (by decide) (by decide)

/-- Claim C2: a RolesAny rule succeeds exactly when the claims' roles field
is a non-empty array containing at least one required identifier (exact,
case-sensitive string equality); otherwise (absent, non-array, empty, or no
match) it fails with exactly the reason
"Missing required roles: at least one of [..]" (required list comma-joined);
NeedAny behaves identically over permissions with the "permissions" reason. -/
theorem rolesAny_needAny_spec (required : List String) (_hreq : required ≠ []) (c : JwtPayload) :
    (PolicyImpl.evaluateRolesAny required c = PolicyResult.success ↔
      ∃ xs, c.roles = ClaimValue.arr xs ∧ xs ≠ [] ∧ ∃ r, r ∈ required ∧ r ∈ xs) ∧
    (PolicyImpl.evaluateRolesAny required c ≠ PolicyResult.success →
      PolicyImpl.evaluateRolesAny required c =
        PolicyResult.failure
          ("Missing required roles: at least one of [" ++ String.intercalate ", " required ++ "]")) ∧
    (PolicyImpl.evaluateNeedAny required c = PolicyResult.success ↔
      ∃ xs, c.permissions = ClaimValue.arr xs ∧ xs ≠ [] ∧ ∃ p, p ∈ required ∧ p ∈ xs) ∧
    (PolicyImpl.evaluateNeedAny required c ≠ PolicyResult.success →
      PolicyImpl.evaluateNeedAny required c =
        PolicyResult.failure
          ("Missing required permissions: at least one of [" ++ String.intercalate ", " required ++ "]")) := by
  refine ⟨evaluateRolesAny_success_iff required c, ?_, evaluateNeedAny_success_iff required c, ?_⟩
  · intro hne
    cases evaluateRule_cases (PolicyRule.rolesAny required) c with
    | inl h => exact absurd h hne
    | inr h => exact h
  · intro hne
    cases evaluateRule_cases (PolicyRule.needAny required) c with
    | inl h => exact absurd h hne
    | inr h => exact h

theorem rolesAny_needAny_spec_witness :
    PolicyImpl.evaluateRolesAny ["admin"] ⟨ClaimValue.arr ["x"], ClaimValue.missing⟩ =
      PolicyResult.failure
        ("Missing required roles: at least one of [" ++ String.intercalate ", " ["admin"] ++ "]") :=
  (rolesAny_needAny_spec ["admin"] (by decide) ⟨ClaimValue.arr ["x"], ClaimValue.missing⟩).2.1
    (by decide)

/-- Claim C3: a RolesAll rule succeeds exactly when the claims' roles field
is a non-empty array containing every required identifier (extra roles
tolerated); otherwise it fails with exactly the reason
"Missing required roles: all of [..]" (required list comma-joined); NeedAll
behaves identically over permissions with the "permissions" reason. -/
theorem rolesAll_needAll_spec (required : List String) (_hreq : required ≠ []) (c : JwtPayload) :
    (PolicyImpl.evaluateRolesAll required c = PolicyResult.success ↔
      ∃ xs, c.roles = ClaimValue.arr xs ∧ xs ≠ [] ∧ ∀ r ∈ required, r ∈ xs) ∧
    (PolicyImpl.evaluateRolesAll required c ≠ PolicyResult.success →
      PolicyImpl.evaluateRolesAll required c =
        PolicyResult.failure
          ("Missing required roles: all of [" ++ String.intercalate ", " required ++ "]")) ∧
    (PolicyImpl.evaluateNeedAll required c = PolicyResult.success ↔
      ∃ xs, c.permissions = ClaimValue.arr xs ∧ xs ≠ [] ∧ ∀ p ∈ required, p ∈ xs) ∧
    (PolicyImpl.evaluateNeedAll required c ≠ PolicyResult.success →
      PolicyImpl.evaluateNeedAll required c =
        PolicyResult.failure
          ("Missing required permissions: all of [" ++ String.intercalate ", " required ++ "]")) := by
  refine ⟨evaluateRolesAll_success_iff required c, ?_, evaluateNeedAll_success_iff required c, ?_⟩
  · intro hne
    cases evaluateRule_cases (PolicyRule.rolesAll required) c with
    | inl h => exact absurd h hne
    | inr h => exact h
  · intro hne
    cases evaluateRule_cases (PolicyRule.needAll required) c with
    | inl h => exact absurd h hne
    | inr h => exact h

theorem rolesAll_needAll_spec_witness :
    PolicyImpl.evaluateRolesAll ["a", "b"] ⟨ClaimValue.arr ["a"], ClaimValue.missing⟩ =
      PolicyResult.failure
        ("Missing required roles: all of [" ++ String.intercalate ", " ["a", "b"] ++ "]") :=
  (rolesAll_needAll_spec ["a", "b"] (by decide) ⟨ClaimValue.arr ["a"], ClaimValue.missing⟩).2.1
    (by decide)

/-- Claim C4: a Policy with an empty rule sequence evaluates every claims
object, including one with no roles or permissions at all, to Success. -/
theorem empty_policy_always_success (c : JwtPayload) :
    PolicyImpl.evaluate [] c = PolicyResult.success := rfl

/-- Claim C5: each of the four builder append methods, called with zero
arguments, throws synchronously with exactly the message
"(method) requires at least one role/permission" and leaves the builder's
rule list exactly as it was (the throw happens before any push, so no
partial rule is added); with one or more arguments it appends exactly one
corresponding rule to the end of the list. -/
theorem builder_zero_args_throw_atomic (rules : List PolicyRule) (args : List String)
    (hne : args ≠ []) :
    (PolicyBuilderImpl.rolesAny rules [] =
      Except.error ("rolesAny requires at least one role", rules)) ∧
    (PolicyBuilderImpl.rolesAll rules [] =
      Except.error ("rolesAll requires at least one role", rules)) ∧
    (PolicyBuilderImpl.needAny rules [] =
      Except.error ("needAny requires at least one permission", rules)) ∧
    (PolicyBuilderImpl.needAll rules [] =
      Except.error ("needAll requires at least one permission", rules)) ∧
    (PolicyBuilderImpl.rolesAny rules args = Except.ok (rules ++ [PolicyRule.rolesAny args])) ∧
    (PolicyBuilderImpl.rolesAll rules args = Except.ok (rules ++ [PolicyRule.rolesAll args])) ∧
    (PolicyBuilderImpl.needAny rules args = Except.ok (rules ++ [PolicyRule.needAny args])) ∧
    (PolicyBuilderImpl.needAll rules args = Except.ok (rules ++ [PolicyRule.needAll args])) := by
  have hlen : ¬ args.length = 0 := by
    rw [List.length_eq_zero]
    exact hne
  refine ⟨rfl, rfl, rfl, rfl, ?_, ?_, ?_, ?_⟩ <;>
    simp only [PolicyBuilderImpl.rolesAny, PolicyBuilderImpl.rolesAll,
      PolicyBuilderImpl.needAny, PolicyBuilderImpl.needAll, if_neg hlen]

theorem builder_zero_args_throw_atomic_witness :
    PolicyBuilderImpl.rolesAny [] ["admin"] =
      Except.ok ([] ++ [PolicyRule.rolesAny ["admin"]]) :=
  (builder_zero_args_throw_atomic [] ["admin"] (by decide)).2.2.2.2.1

/-- Claim C6: build() snapshots the builder's rule list at the moment of the
call: each build reflects exactly the rules accumulated so far (in insertion
order), a later run of further valid append calls only extends that list
(the earlier snapshot is a prefix of the later one), and the Policy built
earlier evaluates every claims object purely as a function of its own
snapshot, so nothing done to the builder afterwards can change it. -/
theorem build_snapshot_isolated (ops1 ops2 : List BuilderOp) (b1 b2 : List PolicyRule)
    (c : JwtPayload)
    (h1 : runOps ops1 = Except.ok b1)
    (h2 : runOps (ops1 ++ ops2) = Except.ok b2) :
    PolicyBuilderImpl.build b1 = b1 ∧
    PolicyBuilderImpl.build b2 = b2 ∧
    (∃ t, b2 = b1 ++ t) ∧
    PolicyImpl.evaluate (PolicyBuilderImpl.build b1) c = PolicyImpl.evaluate b1 c := by
  refine ⟨rfl, rfl, ?_, rfl⟩
  simp only [runOps] at h1 h2
  have h3 := runOpsFrom_append ops1 ops2 []
  rw [h1] at h3
  rw [h2] at h3
  exact runOpsFrom_ok_extends ops2 b1 b2 h3.symm

theorem build_snapshot_isolated_witness :
    PolicyBuilderImpl.build [PolicyRule.rolesAny ["a"]] = [PolicyRule.rolesAny ["a"]] ∧
    PolicyBuilderImpl.build [PolicyRule.rolesAny ["a"], PolicyRule.needAll ["p"]] =
      [PolicyRule.rolesAny ["a"], PolicyRule.needAll ["p"]] ∧
    (∃ t, [PolicyRule.rolesAny ["a"], PolicyRule.needAll ["p"]] =
      [PolicyRule.rolesAny ["a"]] ++ t) ∧
    PolicyImpl.evaluate (PolicyBuilderImpl.build [PolicyRule.rolesAny ["a"]])
        ⟨ClaimValue.arr ["a"], ClaimValue.missing⟩ =
      PolicyImpl.evaluate [PolicyRule.rolesAny ["a"]]
        ⟨ClaimValue.arr ["a"], ClaimValue.missing⟩ :=
  build_snapshot_isolated [BuilderOp.rolesAny ["a"]] [BuilderOp.needAll ["p"]]
    [PolicyRule.rolesAny ["a"]] [PolicyRule.rolesAny ["a"], PolicyRule.needAll ["p"]]
    ⟨ClaimValue.arr ["a"], ClaimValue.missing⟩ (by rfl) (by rfl)

/-- Claim C7: for every rule evaluator, an absent claims field, an empty
array, and a present-but-non-array value (a bare string) are treated
identically — each yields the same Failure value — and the result for a
non-array value does not depend on that value (it is never iterated);
evaluation is a total function, so it never throws. -/
theorem malformed_claims_uniform_failure (required : List String) (s : String) (v : ClaimValue) :
    (PolicyImpl.evaluateRolesAny required ⟨ClaimValue.missing, v⟩ =
        PolicyImpl.evaluateRolesAny required ⟨ClaimValue.arr [], v⟩ ∧
      PolicyImpl.evaluateRolesAny required ⟨ClaimValue.str s, v⟩ =
        PolicyImpl.evaluateRolesAny required ⟨ClaimValue.arr [], v⟩ ∧
      PolicyImpl.evaluateRolesAny required ⟨ClaimValue.missing, v⟩ =
        PolicyResult.failure
          ("Missing required roles: at least one of [" ++ String.intercalate ", " required ++ "]")) ∧
    (PolicyImpl.evaluateRolesAll required ⟨ClaimValue.missing, v⟩ =
        PolicyImpl.evaluateRolesAll required ⟨ClaimValue.arr [], v⟩ ∧
      PolicyImpl.evaluateRolesAll required ⟨ClaimValue.str s, v⟩ =
        PolicyImpl.evaluateRolesAll required ⟨ClaimValue.arr [], v⟩ ∧
      PolicyImpl.evaluateRolesAll required ⟨ClaimValue.missing, v⟩ =
        PolicyResult.failure
          ("Missing required roles: all of [" ++ String.intercalate ", " required ++ "]")) ∧
    (PolicyImpl.evaluateNeedAny required ⟨v, ClaimValue.missing⟩ =
        PolicyImpl.evaluateNeedAny required ⟨v, ClaimValue.arr []⟩ ∧
      PolicyImpl.evaluateNeedAny required ⟨v, ClaimValue.str s⟩ =
        PolicyImpl.evaluateNeedAny required ⟨v, ClaimValue.arr []⟩ ∧
      PolicyImpl.evaluateNeedAny required ⟨v, ClaimValue.missing⟩ =
        PolicyResult.failure
          ("Missing required permissions: at least one of [" ++ String.intercalate ", " required ++ "]")) ∧
    (PolicyImpl.evaluateNeedAll required ⟨v, ClaimValue.missing⟩ =
        PolicyImpl.evaluateNeedAll required ⟨v, ClaimValue.arr []⟩ ∧
      PolicyImpl.evaluateNeedAll required ⟨v, ClaimValue.str s⟩ =
        PolicyImpl.evaluateNeedAll required ⟨v, ClaimValue.arr []⟩ ∧
      PolicyImpl.evaluateNeedAll required ⟨v, ClaimValue.missing⟩ =
        PolicyResult.failure
          ("Missing required permissions: all of [" ++ String.intercalate ", " required ++ "]")) :=
  ⟨⟨rfl, rfl, rfl⟩, ⟨rfl, rfl, rfl⟩, ⟨rfl, rfl, rfl⟩, ⟨rfl, rfl, rfl⟩⟩

/-- Claim C8: evaluation is deterministic and free of observable side
effects: the state-threaded evaluator returns the policy's rule list and the
claims object exactly as they came in, together with the same result as
`evaluate`, and re-evaluating on the state left behind by a first evaluation
yields an equal PolicyResult. -/
theorem evaluate_deterministic_no_side_effects (rules : List PolicyRule) (c : JwtPayload) :
    PolicyImpl.evaluateRun rules c = (PolicyImpl.evaluate rules c, rules, c) ∧
    (PolicyImpl.evaluateRun (PolicyImpl.evaluateRun rules c).2.1
        (PolicyImpl.evaluateRun rules c).2.2).1 =
      (PolicyImpl.evaluateRun rules c).1 := by
  have h : PolicyImpl.evaluateRun rules c = (PolicyImpl.evaluate rules c, rules, c) := by
    unfold PolicyImpl.evaluateRun PolicyImpl.evaluate
    split
    · rfl
    · rw [evaluateRulesRun_eq]
  exact ⟨h, by simp [h]⟩

/-- Claim C9: the failure reason is a function of the rule alone (its kind
and required identifier list): every rule evaluation either succeeds or
fails with `reasonOf rule`, so failures of one rule on any two claims
objects carry identical reason strings and no claims content appears in
them. -/
theorem failure_reason_independent_of_claims :
    (∀ (rule : PolicyRule) (c : JwtPayload),
      PolicyImpl.evaluateRule rule c = PolicyResult.success ∨
      PolicyImpl.evaluateRule rule c = PolicyResult.failure (reasonOf rule)) ∧
    (∀ (rule : PolicyRule) (c1 c2 : JwtPayload) (s1 s2 : String),
      PolicyImpl.evaluateRule rule c1 = PolicyResult.failure s1 →
      PolicyImpl.evaluateRule rule c2 = PolicyResult.failure s2 →
      s1 = s2) := by
  refine ⟨evaluateRule_cases, ?_⟩
  intro rule c1 c2 s1 s2 h1 h2
  have e1 : s1 = reasonOf rule := by
    cases evaluateRule_cases rule c1 with
    | inl h => rw [h] at h1; cases h1
    | inr h => rw [h] at h1; injection h1 with h3; exact h3.symm
  have e2 : s2 = reasonOf rule := by
    cases evaluateRule_cases rule c2 with
    | inl h => rw [h] at h2; cases h2
    | inr h => rw [h] at h2; injection h2 with h3; exact h3.symm
  rw [e1, e2]

theorem failure_reason_independent_of_claims_witness :
    ("Missing required roles: at least one of [admin]" : String) =
      "Missing required roles: at least one of [admin]" :=
  failure_reason_independent_of_claims.2 (PolicyRule.rolesAny ["admin"])
    ⟨ClaimValue.missing, ClaimValue.missing⟩ ⟨ClaimValue.arr ["x"], ClaimValue.missing⟩
    "Missing required roles: at least one of [admin]"
    "Missing required roles: at least one of [admin]"
    (by decide) (by decide)

/-- Claim C10: evaluation is invariant under replacing the claims' roles and
permissions arrays by arrays holding the same member set — in particular
under any permutation or duplication of their elements: the per-rule
predicates depend only on membership and (non-)emptiness, never on element
order or multiplicity. -/
theorem evaluate_invariant_under_membership_equiv (rules : List PolicyRule) (c c' : JwtPayload)
    (hr : ClaimValue.SameMembers c.roles c'.roles)
    (hp : ClaimValue.SameMembers c.permissions c'.permissions) :
    PolicyImpl.evaluate rules c = PolicyImpl.evaluate rules c' := by
  unfold PolicyImpl.evaluate
  split
  · rfl
  · exact evaluateRules_congr rules c c' hr hp

theorem evaluate_invariant_under_membership_equiv_witness :
    PolicyImpl.evaluate [PolicyRule.rolesAny ["a"], PolicyRule.needAll ["p", "q"]]
      ⟨ClaimValue.arr ["a", "b"], ClaimValue.arr ["p", "q"]⟩ =
    PolicyImpl.evaluate [PolicyRule.rolesAny ["a"], PolicyRule.needAll ["p", "q"]]
      ⟨ClaimValue.arr ["b", "a", "a"], ClaimValue.arr ["q", "p", "p"]⟩ :=
  evaluate_invariant_under_membership_equiv
    [PolicyRule.rolesAny ["a"], PolicyRule.needAll ["p", "q"]]
    ⟨ClaimValue.arr ["a", "b"], ClaimValue.arr ["p", "q"]⟩
    ⟨ClaimValue.arr ["b", "a", "a"], ClaimValue.arr ["q", "p", "p"]⟩
    (by
      show ∀ a, a ∈ ["a", "b"] ↔ a ∈ ["b", "a", "a"]
      intro a
      constructor <;> intro h <;> simp_all <;> tauto)
    (by
      show ∀ a, a ∈ ["p", "q"] ↔ a ∈ ["q", "p", "p"]
      intro a
      constructor <;> intro h <;> simp_all <;> tauto)

example : PolicyImpl.evaluate [] ⟨ClaimValue.missing, ClaimValue.missing⟩ = PolicyResult.success := rfl

example : PolicyImpl.evaluateRolesAny ["admin"] ⟨ClaimValue.arr ["admin"], ClaimValue.missing⟩ =
    PolicyResult.success := by decide

example : PolicyImpl.evaluateRolesAny ["admin", "analyst"] ⟨ClaimValue.arr ["viewer"], ClaimValue.missing⟩ =
    PolicyResult.failure "Missing required roles: at least one of [admin, analyst]" := by decide

example : PolicyImpl.evaluateRolesAll ["a", "b"] ⟨ClaimValue.arr ["a"], ClaimValue.missing⟩ =
    PolicyResult.failure "Missing required roles: all of [a, b]" := by decide

example : PolicyImpl.evaluateRolesAll ["a", "b"] ⟨ClaimValue.arr ["a", "b", "c"], ClaimValue.missing⟩ =
    PolicyResult.success := by decide

example : PolicyImpl.evaluateNeedAny ["read:data"] ⟨ClaimValue.missing, ClaimValue.str "read:data"⟩ =
    PolicyResult.failure "Missing required permissions: at least one of [read:data]" := by decide
